import Mathlib

/-!
Verification of the funqy quantum-interpreter core against its
natural-language specification.

All definitions below are shallow embeddings of the Rust source
(`src/engine.rs`, `src/eval.rs`, `src/types.rs`).  `f32` amplitudes are
modelled as exact real numbers, so a complex amplitude is a value of
`ℂ = Complex ℝ`.  A state is a `List ℂ` and a gate is a `List (List ℂ)`,
mirroring `type State = Vec<Cf32>` and `type Gate = Vec<State>`.
-/

noncomputable section

/-- Function `absq` from engine.rs: `n.re * n.re + n.im * n.im`, the squared
magnitude of an amplitude. -/
def absq (n : ℂ) : ℝ := n.re * n.re + n.im * n.im

/-- Method `Stateful::pad` from engine.rs: right-extend the vector with zero
amplitudes until its length is at least `n`. -/
def pad (v : List ℂ) (n : Nat) : List ℂ := v ++ List.replicate (n - v.length) 0

/-- Method `Stateful::prob_sum` from engine.rs:
`self.iter().fold(0, |a, &b| a + absq(b))`. -/
def prob_sum (v : List ℂ) : ℝ := v.foldl (fun a b => a + absq b) 0

/-- Function `get_state` from engine.rs: push `n` zero amplitudes, then a `1`. -/
def get_state (n : Nat) : List ℂ := List.replicate n 0 ++ [1]

/-- Function `zip` from engine.rs: pad both vectors to the common (max) length,
then combine componentwise with `f`. -/
def zip (a b : List ℂ) (f : ℂ → ℂ → ℂ) : List ℂ :=
  let max_len := max a.length b.length
  List.zipWith f (pad a max_len) (pad b max_len)

/-- Function `create_sup` from engine.rs: divisor is
`sqrt(states.iter().map(prob_sum).fold(0, +))`; the states are summed
with the padding `zip` and every amplitude is divided by the divisor. -/
def create_sup (states : List (List ℂ)) : List ℂ :=
  let div := Real.sqrt ((states.map prob_sum).foldl (fun a b => a + b) 0)
  (states.foldl (fun a b => zip a b (fun x y => x + y)) []).map
    (fun x => x / (div : ℂ))

/-- Method `Combine::combine` for states in engine.rs: the Kronecker product
`for x in self { for y in s { push x * y } }`. -/
def combine (a b : List ℂ) : List ℂ := a.flatMap fun x => b.map fun y => x * y

/-- Method `Stateful::phase` from engine.rs.  `n = p * π` (a complex number),
`(cos, sin) = (n.cos(), n.sin())`, and each amplitude `x` is replaced by
`Complex::new(cos.re * x.re + sin.re * x.im, sin.re * x.re + cos.re * x.im)`. -/
def phase (v : List ℂ) (p : ℂ) : List ℂ :=
  let n := p * (Real.pi : ℂ)
  let c := (Complex.cos n).re
  let s := (Complex.sin n).re
  v.map fun x => ⟨c * x.re + s * x.im, s * x.re + c * x.im⟩

/-- Method `Stateful::phase_flip` from engine.rs: negate every amplitude. -/
def phase_flip (v : List ℂ) : List ℂ := v.map fun x => -x

/-- Modelled from the spec: `phase(v, φ)` "multiply each amplitude by
`e^{iπφ}` where `φ` is a real number".  Used only to compare the code's
`phase` against the specified behaviour. -/
def phase_spec (v : List ℂ) (φ : ℝ) : List ℂ :=
  v.map fun x => x * Complex.exp ((Real.pi : ℂ) * (φ : ℂ) * Complex.I)

/-- Method `Extract::extract` for states in engine.rs:
`create_sup(self.zip(g).map(|(x, s)| s.map(|y| x * y)))`. -/
def extract (v : List ℂ) (g : List (List ℂ)) : List ℂ :=
  create_sup (List.zipWith (fun x s => s.map fun y => x * y) v g)

/-- The sampling weight `measure` (engine.rs) hands to `WeightedChoice`
for one amplitude: `u16::MAX as f32 / absq(n)` (the subsequent `as u32`
cast truncates this non-negative value; truncation preserves the order
facts proved below). -/
def measure_weight (n : ℂ) : ℝ := 65535 / absq n

/- ---------- helper lemmas about the engine ---------- -/

theorem absq_zero : absq 0 = 0 := by simp [absq]

theorem absq_one : absq 1 = 1 := by simp [absq]

theorem prob_sum_foldl (v : List ℂ) (a : ℝ) :
    v.foldl (fun a b => a + absq b) a = a + (v.map absq).sum := by
  induction v generalizing a with
  | nil => simp
  | cons x xs ih => simp [List.foldl_cons, ih, add_assoc]

theorem prob_sum_eq_sum (v : List ℂ) : prob_sum v = (v.map absq).sum := by
  simpa using prob_sum_foldl v 0

theorem foldl_add_eq_sum (l : List ℝ) (a : ℝ) :
    l.foldl (fun x y => x + y) a = a + l.sum := by
  induction l generalizing a with
  | nil => simp
  | cons x xs ih => simp [List.foldl_cons, ih, add_assoc]

theorem absq_div_real (x : ℂ) (r : ℝ) : absq (x / (r : ℂ)) = absq x / r ^ 2 := by
  have h : (x / (r : ℂ)) = ⟨x.re / r, x.im / r⟩ := by
    rw [Complex.div_ofReal]
  rw [h]
  show x.re / r * (x.re / r) + x.im / r * (x.im / r)
      = (x.re * x.re + x.im * x.im) / r ^ 2
  rw [div_mul_div_comm, div_mul_div_comm, div_add_div_same, pow_two]

theorem prob_sum_map_div (v : List ℂ) (r : ℝ) :
    prob_sum (v.map fun x => x / (r : ℂ)) = prob_sum v / r ^ 2 := by
  rw [prob_sum_eq_sum, prob_sum_eq_sum, List.map_map]
  induction v with
  | nil => simp
  | cons x xs ih =>
    simp only [List.map_cons, List.sum_cons, ih, Function.comp]
    rw [absq_div_real, add_div]

/- ---------- types.rs ---------- -/

/-- Enum `Type` from types.rs.  `DataType` is inlined as its `id` and variant
list (reference identity of the `Rc` is not needed by any claim below). -/
inductive Ty where
  | any : Ty
  | data (id : String) (variants : List String) : Ty
  | tuple (ts : List Ty) : Ty
  | concat (ts : List Ty) : Ty
  | func (arg ret : Ty) : Ty

mutual

/-- Structural equality on `Ty`, the model of the derived `PartialEq`
that `create_extract_gate_typed` uses in `reduce_type` (`ot == t`). -/
def Ty.beq : Ty → Ty → Bool
  | .any, .any => true
  | .data i1 v1, .data i2 v2 => i1 == i2 && v1 == v2
  | .tuple ts, .tuple us => Ty.beq_list ts us
  | .concat ts, .concat us => Ty.beq_list ts us
  | .func a1 r1, .func a2 r2 => Ty.beq a1 a2 && Ty.beq r1 r2
  | _, _ => false

/-- Componentwise `Ty.beq` on type lists. -/
def Ty.beq_list : List Ty → List Ty → Bool
  | [], [] => true
  | t :: ts, u :: us => Ty.beq t u && Ty.beq_list ts us
  | _, _ => false

end

mutual

/-- Method `Type::size` from types.rs.  `Tuple` folds `Option`-multiplication
from `Some(1)`, `Concat` folds `Option`-addition from `Some(0)` over the
children's sizes, exactly as the source's
`types.iter().map(Type::size).fold(...)`. -/
def Ty.size : Ty → Option Nat
  | .any => none
  | .data _ vs => some vs.length
  | .tuple ts =>
      (Ty.size_list ts).foldl (fun a b => a.bind fun x => b.map fun y => x * y) (some 1)
  | .concat ts =>
      (Ty.size_list ts).foldl (fun a b => a.bind fun x => b.map fun y => x + y) (some 0)
  | .func _ _ => none

/-- The `types.iter().map(Type::size)` part of `Type::size`, written as a
structural recursion (proved equal to `ts.map Ty.size` below). -/
def Ty.size_list : List Ty → List (Option Nat)
  | [] => []
  | t :: ts => Ty.size t :: Ty.size_list ts

end

theorem Ty.size_list_eq_map (ts : List Ty) : Ty.size_list ts = ts.map Ty.size := by
  induction ts with
  | nil => rfl
  | cons t ts ih => simp [Ty.size_list, ih]

/- ---------- eval.rs ---------- -/

/-- Enum `RunVal` from eval.rs.  The payloads that no claim inspects are
elided: a `Func`'s captured context, pattern and body are dropped (its
inferred type is kept) and a `Macro`'s handler is dropped (its name is
kept).  Every claim below dispatches only on the variant shape and on
the payloads that are kept. -/
inductive RunVal where
  | index (n : Nat) : RunVal
  | str (s : String) : RunVal
  | data (id : String) (variants : List String) (i : Nat) : RunVal
  | tuple (vs : List RunVal) : RunVal
  | func (ty : Ty) : RunVal
  | mac (name : String) : RunVal
  | state (s : List ℂ) (t : Ty) : RunVal
  | gate (g : List (List ℂ)) : RunVal

/-- Function `build_bool` from eval.rs: `Index(n)` and `Data(_, n)` convert to
`n > 0`, a `Tuple` converts to `len > 0`, everything else is `None`. -/
def build_bool : RunVal → Option Bool
  | .index n => some (decide (0 < n))
  | .data _ _ n => some (decide (0 < n))
  | .tuple vs => some (decide (0 < vs.length))
  | _ => none

/-- The `Exp::Cond` arm of `eval_exp` (eval.rs): evaluate the condition,
then branch on `build_bool`; a `None` conversion panics
(`"Non-boolean value"`), modelled as `Option.none`.  The two branches
stand for the already-evaluated `then`/`else` expressions; the code
evaluates only the chosen branch, which is observationally the same in
this pure model. -/
def eval_cond (c : RunVal) (thenV elseV : RunVal) : Option RunVal :=
  (build_bool c).map fun b => if b then thenV else elseV

mutual

/-- Function `build_state_typed` from eval.rs.  `Index(n)` becomes
`(get_state n, Any)`; `Data(dt, i)` becomes
`(get_state(i).pad(|variants|), Data dt)`; a `Tuple` builds every member
and folds `combine` from `get_state 0`, with type `Tuple` of the member
types; a `State` passes through; everything else is an error (`none`). -/
def build_state_typed : RunVal → Option (List ℂ × Ty)
  | .index n => some (get_state n, .any)
  | .data id vs i => some (pad (get_state i) vs.length, .data id vs)
  | .tuple vs =>
      (build_state_typed_list vs).map fun sts =>
        (sts.foldl (fun a bt => combine a bt.1) (get_state 0),
         .tuple (sts.map fun bt => bt.2))
  | .state s t => some (s, t)
  | _ => none

/-- The `vals.map(build_state_typed).collect::<Ret<Vec<_>>>()` part of
`build_state_typed`'s tuple case: first failure aborts. -/
def build_state_typed_list : List RunVal → Option (List (List ℂ × Ty))
  | [] => some []
  | v :: vs => do
      let a ← build_state_typed v
      let r ← build_state_typed_list vs
      pure (a :: r)

end

/-- The `RunVal::Gate(gate)` arm of the `Exp::Invoke` case of `eval_exp`
(eval.rs):
`let (s, t) = build_state_typed(eval_exp(arg, ctx))?;`
`RunVal::State(s.extract(gate), t)` — the argument is coerced to a
state and the result is tagged with the coerced argument's type `t`. -/
def invoke_gate (g : List (List ℂ)) (arg : RunVal) : Option RunVal :=
  (build_state_typed arg).map fun st => RunVal.state (extract st.1 g) st.2

/-- The equality test of the `Decl::Assert` arm of `eval_decl` (eval.rs):
for two `State` values the squared moduli of the componentwise
differences of the *zipped* states (`a.iter().zip(b)` stops at the
shorter one) must sum to less than `0.00001`; any other pair of values
must be strictly equal.  `eval_decl` errors ("Assertion failed") exactly
when this proposition is false. -/
def assert_eq : RunVal → RunVal → Prop
  | .state sa _, .state sb _ =>
      (List.zipWith (fun x y => Complex.abs (x - y) * Complex.abs (x - y)) sa sb).sum
        < 0.00001
  | a, b => a = b

/- ---------- create_extract_gate_typed (eval.rs) ---------- -/

/-- One case of an extraction table, with selector and result already
evaluated to states (`build_state(eval_exp(selector, ctx))` etc.) and
the result's type attached: `Case::Exp` or `Case::Default`. -/
inductive ECase where
  | exp (selector result : List ℂ) (rty : Ty) : ECase
  | dflt (result : List ℂ) (rty : Ty) : ECase

/-- Function `reduce_type` from `create_extract_gate_typed` (eval.rs). -/
def reduce_type (ot : Option Ty) (t : Ty) : Option Ty :=
  some (match ot with
    | none => t
    | some o => if Ty.beq o t then t else Ty.any)

/-- One column update of a `Case::Exp` (eval.rs): with
`len = max(|result|, |dims[i]|)`, the new column is
`zip (result.pad len) (dims[i].pad len) |(r, d)| r * sᵢ + d`. -/
def case_exp_col (si : ℂ) (result d : List ℂ) : List ℂ :=
  let len := max result.length d.length
  List.zipWith (fun r dd => r * si + dd) (pad result len) (pad d len)

/-- The `for (i, s) in selector_state.iter().enumerate()` loop of a
`Case::Exp` (eval.rs): column `i` is updated with `case_exp_col sᵢ`.
The second pattern is unreachable in `create_extract_gate_typed`
because `dims` has just been extended to at least the selector's
length. -/
def case_exp_apply : List ℂ → List ℂ → List (List ℂ) → List (List ℂ)
  | [], _, dims => dims
  | _ :: _, _, [] => []
  | si :: s, r, d :: dims => case_exp_col si r d :: case_exp_apply s r dims

/-- The `while dims.len() < selector_state.len() || dims.len() < min_input_size`
loop (eval.rs): push empty columns until the length reaches `n`. -/
def extend_dims (dims : List (List ℂ)) (n : Nat) : List (List ℂ) :=
  dims ++ List.replicate (n - dims.length) []

/-- One iteration of the `for case in cases.iter()` loop of
`create_extract_gate_typed` (eval.rs), acting on the accumulated
`(dims, output_type)` pair.  A `Default` case overwrites exactly the
columns whose `prob_sum` is zero. -/
def apply_case (min_input_size : Nat) :
    List (List ℂ) × Option Ty → ECase → List (List ℂ) × Option Ty
  | (dims, ot), .exp s r rty =>
      (case_exp_apply s r (extend_dims dims (max s.length min_input_size)),
       reduce_type ot rty)
  | (dims, ot), .dflt r rty =>
      (dims.map fun d => if prob_sum d = 0 then r else d, reduce_type ot rty)

/-- Function `create_extract_gate_typed` from eval.rs: fold the cases in source
order from `(vec![], None)`, then pad every column to the maximum column
length (`.max().unwrap_or(0)`), and default the output type to `Any`. -/
def create_extract_gate_typed (cases : List ECase) (min_input_size : Nat) :
    List (List ℂ) × Ty :=
  let folded := cases.foldl (apply_case min_input_size) ([], none)
  let max_len := (folded.1.map List.length).foldl (fun a b => max a b) 0
  (folded.1.map fun s => pad s max_len, folded.2.getD Ty.any)

/-- The case table `i => Index(i)` for `i = 0..n-1`; selector and result
`Index(i)` both build the state `get_state i`. -/
def identity_cases (n : Nat) : List ECase :=
  (List.range n).map fun i => .exp (get_state i) (get_state i) Ty.any

/-- The identity gate of the claim: the gate compiled by
`create_extract_gate_typed` from `identity_cases n` (the `Exp::Extract`
arm of `eval_exp` passes the input state's length as
`min_input_size`). -/
def identity_gate (n : Nat) : List (List ℂ) :=
  (create_extract_gate_typed (identity_cases n) n).1

/- ---------- C1 ---------- -/

/-- C1: the claim states that `measure(v)` hands the weighted-choice
sampler a weight proportional to `‖vᵢ‖²`.  The code computes
`u16::MAX / absq(vᵢ)`, which is *inversely* proportional: doubling the
amplitude (quadrupling `absq`) *shrinks* the weight instead of
quadrupling it.  Evaluated at the state `[1, 2]`. -/
theorem c1_measure_weight_inverted :
    measure_weight 1 = 65535
    ∧ absq (2 : ℂ) = 4 * absq (1 : ℂ)
    ∧ measure_weight (2 : ℂ) ≠ 4 * measure_weight (1 : ℂ)
    ∧ measure_weight (2 : ℂ) < measure_weight (1 : ℂ) := by
  norm_num [measure_weight, absq]

/- ---------- C7 ---------- -/

theorem opt_add_foldl (ns : List Nat) (i : Nat) :
    (ns.map some).foldl (fun a b => a.bind fun x => b.map fun y => x + y) (some i)
      = some (i + ns.sum) := by
  induction ns generalizing i with
  | nil => simp
  | cons n ns ih => simp [List.foldl_cons, ih, Nat.add_assoc]

/-- C7 (amended): `size(Concat(ts))` is the sum of the children's sizes
whenever every child size is known; the empty `Concat` has size `0`
(the fold starts from `Some(0)`), not `1` as the claim states. -/
theorem c7_concat_size_sum (ts : List Ty) (ns : List Nat)
    (h : ts.map Ty.size = ns.map some) :
    (Ty.concat ts).size = some ns.sum := by
  rw [Ty.size, Ty.size_list_eq_map, h, opt_add_foldl]
  simp

/-- C7 witness: a concrete concat of two data types of sizes 2 and 1
has size 3. -/
theorem c7_concat_size_sum_witness :
    (Ty.concat [Ty.data "B" ["F", "T"], Ty.data "U" ["u"]]).size = some 3 := by
  have h := c7_concat_size_sum [Ty.data "B" ["F", "T"], Ty.data "U" ["u"]] [2, 1]
    (by simp [Ty.size])
  simpa using h

/-- C7 counterexample: the claim says the size of the empty `Concat` is
`1`; the code folds from `Some(0)`, so it is `some 0`, not `some 1`. -/
theorem c7_empty_concat_counterexample :
    (Ty.concat []).size = some 0 ∧ (Ty.concat []).size ≠ some 1 := by
  constructor
  · rw [Ty.size, Ty.size_list]
    rfl
  · rw [Ty.size, Ty.size_list]
    simp

/- ---------- C10 ---------- -/

/-- C10: `Cond`'s boolean conversion: `Index(n)` and `Data(_, n)` are
true iff `n > 0`, a `Tuple` is true iff non-empty, and every other value
(String, State, Gate, Func, Macro) is not boolean-convertible — so
conditioning on it fails (the `Exp::Cond` arm panics), even for a
2-dimensional state. -/
theorem c10_build_bool_conversion :
    (∀ n, build_bool (RunVal.index n) = some true ↔ 0 < n)
    ∧ (∀ id vs n, build_bool (RunVal.data id vs n) = some true ↔ 0 < n)
    ∧ (∀ vs, build_bool (RunVal.tuple vs) = some true ↔ vs ≠ [])
    ∧ (∀ s, build_bool (RunVal.str s) = none)
    ∧ (∀ v t, build_bool (RunVal.state v t) = none)
    ∧ (∀ g, build_bool (RunVal.gate g) = none)
    ∧ (∀ t, build_bool (RunVal.func t) = none)
    ∧ (∀ nm, build_bool (RunVal.mac nm) = none)
    ∧ (∀ t a b, eval_cond (RunVal.state [1, 0] t) a b = none)
    ∧ (∀ v t a b, eval_cond (RunVal.state v t) a b = none) := by
  refine ⟨fun n => ?_, fun id vs n => ?_, fun vs => ?_, fun s => rfl, fun v t => rfl,
    fun g => rfl, fun t => rfl, fun nm => rfl, fun t a b => rfl, fun v t a b => rfl⟩
  · simp [build_bool]
  · simp [build_bool]
  · simp [build_bool, List.length_pos]

/- ---------- C5 ---------- -/

/-- C5 (amended): when `Invoke`'s target evaluates to a `Gate` value,
the argument is evaluated and coerced to a state via
`build_state_typed`, the gate is applied via `extract`, and the
resulting `State` is tagged with the *argument's* coerced type `t` — not
with `Any` as the claim states. -/
theorem c5_invoke_gate_tags_argument_type (g : List (List ℂ)) (v : RunVal)
    (s : List ℂ) (t : Ty) (h : build_state_typed v = some (s, t)) :
    invoke_gate g v = some (RunVal.state (extract s g) t) := by
  simp [invoke_gate, h]

/-- C5 witness: applying the NOT gate to the classical index `1`
(coerced type `Any`) yields the state `[1, 0]` tagged `Any`. -/
theorem c5_invoke_gate_witness :
    invoke_gate [[0, 1], [1, 0]] (RunVal.index 1)
      = some (RunVal.state [1, 0] Ty.any) := by
  have h := c5_invoke_gate_tags_argument_type [[0, 1], [1, 0]] (RunVal.index 1)
    (get_state 1) Ty.any rfl
  rw [h]
  have he : extract (get_state 1) [[0, 1], [1, 0]] = [1, 0] := by
    simp [get_state, extract, create_sup, zip, pad, prob_sum, absq]
  rw [he]

/-- C5 counterexample: invoking a gate on the data value `T : Bool`
(variant index 1) returns a state tagged with the argument's type
`Data Bool`, which is not `Any` — refuting the claim's "tagged with type
Any". -/
theorem c5_invoke_gate_counterexample :
    invoke_gate [[0, 1], [1, 0]] (RunVal.data "Bool" ["F", "T"] 1)
      = some (RunVal.state [1, 0] (Ty.data "Bool" ["F", "T"]))
    ∧ Ty.data "Bool" ["F", "T"] ≠ Ty.any := by
  constructor
  · have he : extract (pad (get_state 1) 2) [[0, 1], [1, 0]] = [1, 0] := by
      simp [get_state, extract, create_sup, zip, pad, prob_sum, absq]
    simp [invoke_gate, build_state_typed, he]
  · intro h
    exact Ty.noConfusion h

/- ---------- C6 ---------- -/

theorem abs_mul_self_eq_absq (z : ℂ) : Complex.abs z * Complex.abs z = absq z := by
  have h := Complex.sq_abs z
  rw [pow_two] at h
  rw [h, Complex.normSq_apply, absq]

theorem zipWith_absq_sum (a b : List ℂ) :
    (List.zipWith (fun x y => Complex.abs (x - y) * Complex.abs (x - y)) a b).sum
      = ∑ i in Finset.range (min a.length b.length), absq (a.getD i 0 - b.getD i 0) := by
  induction a generalizing b with
  | nil => simp
  | cons x xs ih =>
    cases b with
    | nil => simp
    | cons y ys =>
      simp only [List.zipWith_cons_cons, List.sum_cons, List.length_cons,
        Nat.succ_min_succ, Finset.sum_range_succ', List.getD_cons_succ,
        List.getD_cons_zero]
      rw [ih ys, abs_mul_self_eq_absq, add_comm]

/-- Modelled from the spec: the Assert success condition with the
shorter state right-zero-padded to the longer one, the sum ranging over
all indices of the longer state.  Used only to exhibit the divergence
from the code's truncating `a.iter().zip(b)`. -/
def assert_eq_spec (a b : List ℂ) : Prop :=
  let m := max a.length b.length
  (List.zipWith (fun x y => Complex.abs (x - y) * Complex.abs (x - y))
    (pad a m) (pad b m)).sum < 0.00001

/-- C6 (amended): for two `State` values, Assert succeeds iff
`Σ ‖aᵢ − bᵢ‖² < 1e-5` where the sum ranges over the indices of the
*shorter* state — `a.iter().zip(b)` truncates, so trailing amplitudes of
the longer state are ignored, not zero-padded as the claim states.  On
failure `eval_decl` raises the "Assertion failed" error. -/
theorem c6_assert_truncated_sum (sa sb : List ℂ) (ta tb : Ty) :
    assert_eq (RunVal.state sa ta) (RunVal.state sb tb)
      ↔ (∑ i in Finset.range (min sa.length sb.length),
          absq (sa.getD i 0 - sb.getD i 0)) < 0.00001 := by
  show (List.zipWith (fun x y => Complex.abs (x - y) * Complex.abs (x - y)) sa sb).sum
      < 0.00001 ↔ _
  rw [zipWith_absq_sum]

/-- C6 counterexample: `[1]` and `[1, 1]` assert-equal under the code
(the zipped sum is `0`), but under the claim's zero-padded comparison the
sum is `1 ≥ 1e-5`, so the claim's criterion would fail. -/
theorem c6_assert_counterexample :
    assert_eq (RunVal.state [1] Ty.any) (RunVal.state [1, 1] Ty.any)
    ∧ ¬ assert_eq_spec [1] [1, 1] := by
  constructor
  · show (List.zipWith (fun x y => Complex.abs (x - y) * Complex.abs (x - y))
        [(1 : ℂ)] [(1 : ℂ), 1]).sum < 0.00001
    norm_num
  · simp only [assert_eq_spec]
    norm_num [pad]

/- ---------- C2 ---------- -/

/-- C2 (amended): `prob_sum (create_sup states) = 1` holds exactly when
the componentwise sum of the states has squared norm equal to the pooled
sum `Σᵢ prob_sum(sᵢ)` that the code divides by, and that pooled sum is
positive (e.g. states with pairwise disjoint supports).  For general
non-empty input lists the pooled L2 normalization does *not* produce a
unit vector (see the counterexample). -/
theorem c2_create_sup_normalized (states : List (List ℂ))
    (h1 : prob_sum (states.foldl (fun a b => zip a b fun x y => x + y) [])
        = (states.map prob_sum).foldl (fun a b => a + b) 0)
    (h2 : 0 < (states.map prob_sum).foldl (fun a b => a + b) 0) :
    prob_sum (create_sup states) = 1 := by
  unfold create_sup
  rw [prob_sum_map_div, Real.sq_sqrt h2.le, h1]
  exact div_self (ne_of_gt h2)

/-- C2 witness: the two orthogonal states `[1]` and `[0, 1]` superpose
to a unit vector. -/
theorem c2_create_sup_normalized_witness :
    prob_sum (create_sup [[(1 : ℂ)], [0, 1]]) = 1 :=
  c2_create_sup_normalized [[(1 : ℂ)], [0, 1]]
    (by norm_num [zip, pad, prob_sum, absq])
    (by norm_num [prob_sum, absq])

/-- C2 counterexample: for the non-empty list `[[1], [1]]` the result of
`create_sup` is `[2/√2] = [√2]`, whose probability sum is `2`, not `1`
up to the claimed `1e-5` tolerance. -/
theorem c2_create_sup_counterexample :
    ¬ (|prob_sum (create_sup [[(1 : ℂ)], [(1 : ℂ)]]) - 1| < 0.00001) := by
  have h : create_sup [[(1 : ℂ)], [(1 : ℂ)]] = [(2 : ℂ) / (Real.sqrt 2 : ℂ)] := by
    simp [create_sup, zip, pad, prob_sum, absq]
    norm_num
  rw [h]
  have h2 : prob_sum [(2 : ℂ) / (Real.sqrt 2 : ℂ)] = 2 := by
    have ha := absq_div_real 2 (Real.sqrt 2)
    rw [Real.sq_sqrt (by norm_num : (0 : ℝ) ≤ 2)] at ha
    simp [prob_sum, ha, absq]
  rw [h2]
  norm_num

/- ---------- C3 ---------- -/

/-- C3: the claim says `phase(v, φ)` multiplies every amplitude by
`e^{iπφ}`.  The code computes
`(cos·re + sin·im, sin·re + cos·im)` — a `+` where complex
multiplication needs `cos·re − sin·im` — so on the amplitude `i` with
`φ = 1/2` the code returns `[1]` while `e^{iπ/2}·i = −1`. -/
theorem c3_phase_not_scalar_multiplication :
    phase [Complex.I] ((1 : ℂ) / 2) = [1]
    ∧ phase_spec [Complex.I] (1 / 2) = [-1]
    ∧ phase [Complex.I] ((1 : ℂ) / 2) ≠ phase_spec [Complex.I] (1 / 2) := by
  have h1 : phase [Complex.I] ((1 : ℂ) / 2) = [1] := by
    have hn : ((1 : ℂ) / 2) * (Real.pi : ℂ) = ((Real.pi / 2 : ℝ) : ℂ) := by
      push_cast
      ring
    simp only [phase, hn, Complex.cos_ofReal_re, Complex.sin_ofReal_re,
      Real.cos_pi_div_two, Real.sin_pi_div_two, Complex.I_re, Complex.I_im,
      List.map_cons, List.map_nil]
    norm_num
    exact Complex.ext (by norm_num) (by norm_num)
  have h2 : phase_spec [Complex.I] (1 / 2) = [-1] := by
    have hn : (Real.pi : ℂ) * (((1 : ℝ) / 2 : ℝ) : ℂ) = ((Real.pi / 2 : ℝ) : ℂ) := by
      push_cast
      ring
    simp only [phase_spec, hn, List.map_cons, List.map_nil]
    rw [Complex.exp_mul_I]
    rw [← Complex.ofReal_cos, ← Complex.ofReal_sin]
    rw [Real.cos_pi_div_two, Real.sin_pi_div_two]
    simp [Complex.I_mul_I]
  refine ⟨h1, h2, ?_⟩
  rw [h1, h2]
  intro h
  have : (1 : ℂ) = -1 := by injection h
  norm_num at this

/- ---------- C4 ---------- -/

/-- C4: `phase(v, 0) = v` and `phase_flip(phase_flip(v)) = v` hold, but
the composition law `phase(phase(v, a), b) = phase(v, a+b)` fails: with
`v = [1]` and `a = b = 1/4` the code yields `[1 + i]` while
`phase([1], 1/2) = [i]` (a consequence of the same sign slip as in C3 —
the transformation matrix `[[c, s], [s, c]]` is not a rotation). -/
theorem c4_phase_composition_divergence :
    phase (phase [1] ((1 : ℂ) / 4)) ((1 : ℂ) / 4) = [⟨1, 1⟩]
    ∧ phase [1] ((1 : ℂ) / 2) = [Complex.I]
    ∧ phase (phase [1] ((1 : ℂ) / 4)) ((1 : ℂ) / 4) ≠ phase [1] ((1 : ℂ) / 2) := by
  have hn4 : ((1 : ℂ) / 4) * (Real.pi : ℂ) = ((Real.pi / 4 : ℝ) : ℂ) := by
    push_cast
    ring
  have ha : phase [1] ((1 : ℂ) / 4) = [⟨Real.sqrt 2 / 2, Real.sqrt 2 / 2⟩] := by
    simp only [phase, hn4, Complex.cos_ofReal_re, Complex.sin_ofReal_re,
      Real.cos_pi_div_four, Real.sin_pi_div_four, Complex.one_re, Complex.one_im,
      List.map_cons, List.map_nil]
    norm_num
  have hb : phase [⟨Real.sqrt 2 / 2, Real.sqrt 2 / 2⟩] ((1 : ℂ) / 4) = [⟨1, 1⟩] := by
    have h2 : Real.sqrt 2 * Real.sqrt 2 = 2 := Real.mul_self_sqrt (by norm_num)
    simp only [phase, hn4, Complex.cos_ofReal_re, Complex.sin_ofReal_re,
      Real.cos_pi_div_four, Real.sin_pi_div_four, List.map_cons, List.map_nil]
    norm_num
    nlinarith [h2]
  have hc : phase [1] ((1 : ℂ) / 2) = [Complex.I] := by
    have hn : ((1 : ℂ) / 2) * (Real.pi : ℂ) = ((Real.pi / 2 : ℝ) : ℂ) := by
      push_cast
      ring
    simp only [phase, hn, Complex.cos_ofReal_re, Complex.sin_ofReal_re,
      Real.cos_pi_div_two, Real.sin_pi_div_two, Complex.one_re, Complex.one_im,
      List.map_cons, List.map_nil]
    norm_num
    exact Complex.ext (by norm_num) (by simp)
  refine ⟨by rw [ha, hb], hc, ?_⟩
  rw [ha, hb, hc]
  intro h
  have h1 : (⟨1, 1⟩ : ℂ) = Complex.I := by injection h
  have h2 : (1 : ℝ) = 0 := by
    have hre := congrArg Complex.re h1
    simp at hre
  norm_num at h2

/- ---------- C8 ---------- -/

theorem getD_map_lt (f : List ℂ → List ℂ) :
    ∀ (l : List (List ℂ)) (i : Nat), i < l.length →
      (l.map f).getD i [] = f (l.getD i []) := by
  intro l
  induction l with
  | nil => intro i h; simp at h
  | cons x xs ih =>
    intro i h
    cases i with
    | zero => simp
    | succ j =>
      simp only [List.map_cons, List.getD_cons_succ]
      exact ih j (by simpa using h)

/-- C8: processing a `Default(result)` case replaces exactly those
columns `i` in `0..|dims|` whose accumulated column has zero probability
mass (`prob_sum (dims[i]) = 0`) by the default result, and leaves every
column with non-zero probability mass unchanged; the length of `dims` is
unchanged.  (`create_extract_gate_typed` consumes the cases in source
order: it is a left fold of `apply_case` over the case list.) -/
theorem c8_default_case_frame (dims : List (List ℂ)) (ot : Option Ty) (m : Nat)
    (r : List ℂ) (rty : Ty) :
    ((apply_case m (dims, ot) (.dflt r rty)).1.length = dims.length)
    ∧ ∀ i, i < dims.length →
        (apply_case m (dims, ot) (.dflt r rty)).1.getD i []
          = if prob_sum (dims.getD i []) = 0 then r else dims.getD i [] := by
  constructor
  · simp [apply_case]
  · intro i hi
    show ((dims.map fun d => if prob_sum d = 0 then r else d).getD i []) = _
    rw [getD_map_lt _ dims i hi]

/-- C8 witness: on `dims = [[0], [1]]` a default case `[5]` fills the
zero-mass column 0 and leaves the populated column 1 unchanged. -/
theorem c8_default_case_frame_witness :
    (apply_case 0 ([[(0 : ℂ)], [(1 : ℂ)]], none) (ECase.dflt [(5 : ℂ)] Ty.any)).1.getD 0 []
      = [(5 : ℂ)]
    ∧ (apply_case 0 ([[(0 : ℂ)], [(1 : ℂ)]], none) (ECase.dflt [(5 : ℂ)] Ty.any)).1.getD 1 []
      = [(1 : ℂ)] := by
  constructor
  · have h0 := (c8_default_case_frame [[(0 : ℂ)], [(1 : ℂ)]] none 0 [(5 : ℂ)] Ty.any).2
      0 (by norm_num)
    simp only [List.getD_cons_zero] at h0
    rw [h0, if_pos]
    norm_num [prob_sum, absq]
  · have h1 := (c8_default_case_frame [[(0 : ℂ)], [(1 : ℂ)]] none 0 [(5 : ℂ)] Ty.any).2
      1 (by norm_num)
    simp only [List.getD_cons_succ, List.getD_cons_zero] at h1
    rw [h1, if_neg]
    norm_num [prob_sum, absq]

/- ---------- C9: helper lemmas on pad / get_state ---------- -/

theorem pad_length (v : List ℂ) (n : Nat) : (pad v n).length = max v.length n := by
  simp [pad]
  omega

theorem pad_cons (a : ℂ) (v : List ℂ) (n : Nat) :
    pad (a :: v) (n + 1) = a :: pad v n := by
  simp [pad, Nat.succ_sub_succ]

theorem pad_nil (n : Nat) : pad [] n = List.replicate n 0 := by
  simp [pad]

theorem pad_eq_self (v : List ℂ) (n : Nat) (h : n ≤ v.length) : pad v n = v := by
  simp [pad, Nat.sub_eq_zero_of_le h]

theorem pad_pad (v : List ℂ) (a b : Nat) : pad (pad v a) b = pad v (max a b) := by
  unfold pad
  rw [List.length_append, List.length_replicate, List.append_assoc,
    ← List.replicate_add]
  congr 2
  omega

theorem get_state_succ (n : Nat) : get_state (n + 1) = 0 :: get_state n := by
  simp [get_state, List.replicate_succ]

theorem get_state_length (n : Nat) : (get_state n).length = n + 1 := by
  simp [get_state]

/- ---------- C9: column-update lemmas ---------- -/

theorem zipWith_mul_zero_add :
    ∀ (x y : List ℂ), x.length = y.length →
      List.zipWith (fun a b => a * 0 + b) x y = y := by
  intro x
  induction x with
  | nil =>
    intro y h
    cases y with
    | nil => rfl
    | cons b bs => simp at h
  | cons a as ih =>
    intro y h
    cases y with
    | nil => simp at h
    | cons b bs =>
      rw [List.zipWith_cons_cons, ih bs (by simpa using h)]
      simp

theorem case_exp_col_zero (r d : List ℂ) :
    case_exp_col 0 r d = pad d (max r.length d.length) := by
  unfold case_exp_col
  apply zipWith_mul_zero_add
  rw [pad_length, pad_length]
  omega

theorem zipWith_mul_one_add_zero :
    ∀ (r : List ℂ),
      List.zipWith (fun a b => a * 1 + b) r (List.replicate r.length 0) = r := by
  intro r
  induction r with
  | nil => rfl
  | cons a as ih =>
    rw [List.length_cons, List.replicate_succ, List.zipWith_cons_cons, ih]
    simp

theorem case_exp_col_one_nil (r : List ℂ) : case_exp_col 1 r [] = r := by
  unfold case_exp_col
  simp only [List.length_nil, Nat.max_zero, pad_nil]
  rw [pad_eq_self r r.length (le_refl _)]
  exact zipWith_mul_one_add_zero r

theorem case_exp_apply_split (r : List ℂ) :
    ∀ (ds : List (List ℂ)) (k : Nat) (s : List ℂ) (rest : List (List ℂ)),
      k = ds.length →
      case_exp_apply (List.replicate k 0 ++ s) r (ds ++ rest)
        = ds.map (fun d => case_exp_col 0 r d) ++ case_exp_apply s r rest := by
  intro ds
  induction ds with
  | nil =>
    intro k s rest hk
    subst hk
    simp
  | cons d ds ih =>
    intro k s rest hk
    subst hk
    simp only [List.length_cons, List.replicate_succ, List.cons_append,
      List.map_cons]
    show case_exp_col 0 r d
        :: case_exp_apply (List.replicate ds.length 0 ++ s) r (ds ++ rest) = _
    rw [ih ds.length s rest rfl]

/- ---------- C9: the dims component of the case fold ---------- -/

/-- The `dims` component of `apply_case`; it does not depend on the
accumulated output type. -/
def apply_case_dims (m : Nat) (dims : List (List ℂ)) : ECase → List (List ℂ)
  | .exp s r _ => case_exp_apply s r (extend_dims dims (max s.length m))
  | .dflt r _ => dims.map fun d => if prob_sum d = 0 then r else d

theorem apply_case_fst (m : Nat) (p : List (List ℂ) × Option Ty) (c : ECase) :
    (apply_case m p c).1 = apply_case_dims m p.1 c := by
  rcases p with ⟨dims, ot⟩
  cases c with
  | exp s r rty => rfl
  | dflt r rty => rfl

theorem fold_fst (m : Nat) :
    ∀ (cases : List ECase) (p : List (List ℂ) × Option Ty),
      (cases.foldl (apply_case m) p).1 = cases.foldl (apply_case_dims m) p.1 := by
  intro cases
  induction cases with
  | nil => intro p; rfl
  | cons c cs ih =>
    intro p
    rw [List.foldl_cons, List.foldl_cons, ih, apply_case_fst]

theorem identity_cases_succ (n : Nat) :
    identity_cases (n + 1)
      = identity_cases n ++ [.exp (get_state n) (get_state n) Ty.any] := by
  simp [identity_cases, List.range_succ]

/-- The accumulated `dims` after folding the identity case table of size
`n ≥ 1` with `min_input_size = m ≥ n`: column `i < n` is the basis state
`eᵢ` padded to length `n`, followed by `m − n` still-empty columns. -/
theorem identity_fold (m : Nat) :
    ∀ n, 0 < n → n ≤ m →
      (identity_cases n).foldl (apply_case_dims m) []
        = (List.range n).map (fun i => pad (get_state i) n)
          ++ List.replicate (m - n) [] := by
  intro n
  induction n with
  | zero => intro h; exact absurd h (by norm_num)
  | succ k ih =>
    intro _ hle
    rw [identity_cases_succ, List.foldl_append, List.foldl_cons, List.foldl_nil]
    cases k with
    | zero =>
      show apply_case_dims m ((identity_cases 0).foldl (apply_case_dims m) [])
          (.exp (get_state 0) (get_state 0) Ty.any) = _
      have h0 : (identity_cases 0).foldl (apply_case_dims m) [] = [] := rfl
      rw [h0]
      show case_exp_apply (get_state 0) (get_state 0)
          (extend_dims [] (max (get_state 0).length m)) = _
      have hmax : max (get_state 0).length m = m := by
        rw [get_state_length]
        omega
      rw [hmax]
      have hext : extend_dims [] m = List.replicate m [] := by
        simp [extend_dims]
      rw [hext]
      have hrep : List.replicate m ([] : List ℂ)
          = [] :: List.replicate (m - 1) [] := by
        cases m with
        | zero => omega
        | succ j => simp [List.replicate_succ]
      rw [hrep]
      show case_exp_col 1 (get_state 0) []
          :: case_exp_apply [] (get_state 0) (List.replicate (m - 1) []) = _
      rw [case_exp_col_one_nil]
      show get_state 0 :: List.replicate (m - 1) [] = _
      have : pad (get_state 0) 1 = get_state 0 :=
        pad_eq_self _ _ (by rw [get_state_length])
      simp [List.range_succ, this]
    | succ j =>
      rw [ih (by omega) (by omega)]
      show case_exp_apply (get_state (j + 1)) (get_state (j + 1))
          (extend_dims _ (max (get_state (j + 1)).length m)) = _
      have hmax : max (get_state (j + 1)).length m = m := by
        rw [get_state_length]
        omega
      rw [hmax]
      have hD : ((List.range (j + 1)).map (fun i => pad (get_state i) (j + 1))
          ++ List.replicate (m - (j + 1)) ([] : List ℂ)).length = m := by
        simp
        omega
      have hext : extend_dims ((List.range (j + 1)).map
            (fun i => pad (get_state i) (j + 1))
          ++ List.replicate (m - (j + 1)) ([] : List ℂ)) m
          = (List.range (j + 1)).map (fun i => pad (get_state i) (j + 1))
            ++ List.replicate (m - (j + 1)) ([] : List ℂ) := by
        simp [extend_dims, hD]
      rw [hext]
      show case_exp_apply (List.replicate (j + 1) 0 ++ [1]) (get_state (j + 1))
          (((List.range (j + 1)).map (fun i => pad (get_state i) (j + 1)))
            ++ List.replicate (m - (j + 1)) []) = _
      rw [case_exp_apply_split (get_state (j + 1))
        ((List.range (j + 1)).map (fun i => pad (get_state i) (j + 1)))
        (j + 1) [1] (List.replicate (m - (j + 1)) []) (by simp)]
      have hR : List.replicate (m - (j + 1)) ([] : List ℂ)
          = [] :: List.replicate (m - (j + 2)) [] := by
        have harith : m - (j + 1) = (m - (j + 2)) + 1 := by omega
        rw [harith, List.replicate_succ]
      rw [hR]
      show _ ++ (case_exp_col 1 (get_state (j + 1)) []
          :: case_exp_apply [] (get_state (j + 1))
            (List.replicate (m - (j + 2)) [])) = _
      rw [case_exp_col_one_nil]
      show ((List.range (j + 1)).map (fun i => pad (get_state i) (j + 1))).map
            (fun d => case_exp_col 0 (get_state (j + 1)) d)
          ++ (get_state (j + 1) :: List.replicate (m - (j + 2)) []) = _
      rw [List.map_map]
      have hcols : (List.range (j + 1)).map
            ((fun d => case_exp_col 0 (get_state (j + 1)) d)
              ∘ (fun i => pad (get_state i) (j + 1)))
          = (List.range (j + 1)).map (fun i => pad (get_state i) (j + 2)) := by
        apply List.map_congr_left
        intro i hi
        have hilt : i < j + 1 := List.mem_range.mp hi
        show case_exp_col 0 (get_state (j + 1)) (pad (get_state i) (j + 1))
            = pad (get_state i) (j + 2)
        rw [case_exp_col_zero, get_state_length, pad_length, get_state_length]
        have h1 : max (i + 1) (j + 1) = j + 1 := by omega
        rw [h1]
        have h2 : max (j + 1 + 1) (j + 1) = j + 2 := by omega
        rw [h2, pad_pad]
        have h3 : max (j + 1) (j + 2) = j + 2 := by omega
        rw [h3]
      rw [hcols]
      conv_rhs => rw [List.range_succ]
      rw [List.map_append, List.append_assoc]
      have hpad : pad (get_state (j + 1)) (j + 2) = get_state (j + 1) :=
        pad_eq_self _ _ (by rw [get_state_length])
      simp [hpad]

theorem foldl_max_replicate (k n : Nat) :
    (List.replicate k n).foldl (fun a b => max a b) n = n := by
  induction k with
  | zero => rfl
  | succ j ih => simp only [List.replicate_succ, List.foldl_cons, Nat.max_self, ih]

theorem foldl_max_replicate_zero (k n : Nat) :
    (List.replicate (k + 1) n).foldl (fun a b => max a b) 0 = n := by
  rw [List.replicate_succ, List.foldl_cons, Nat.zero_max, foldl_max_replicate]

theorem create_extract_gate_fst (cases : List ECase) (m : Nat) :
    (create_extract_gate_typed cases m).1
      = (cases.foldl (apply_case_dims m) []).map
          (fun s => pad s
            (((cases.foldl (apply_case_dims m) []).map List.length).foldl
              (fun a b => max a b) 0)) := by
  show ((cases.foldl (apply_case m) ([], none)).1).map
      (fun s => pad s
        ((((cases.foldl (apply_case m) ([], none)).1).map List.length).foldl
          (fun a b => max a b) 0)) = _
  rw [fold_fst]

/-- The compiled identity gate in closed form: column `i` is the basis
state `eᵢ` padded to length `n`. -/
theorem identity_gate_eq (n : Nat) :
    identity_gate n = (List.range n).map fun i => pad (get_state i) n := by
  cases n with
  | zero => rfl
  | succ k =>
    unfold identity_gate
    rw [create_extract_gate_fst]
    rw [identity_fold (k + 1) (k + 1) (by omega) (le_refl _)]
    simp only [Nat.sub_self, List.replicate_zero, List.append_nil]
    have hlen : ((List.range (k + 1)).map
          (fun i => pad (get_state i) (k + 1))).map List.length
        = List.replicate (k + 1) (k + 1) := by
      rw [List.map_map]
      have hcongr : ∀ i ∈ List.range (k + 1),
          (List.length ∘ fun i => pad (get_state i) (k + 1)) i = k + 1 := by
        intro i hi
        have hik : i < k + 1 := List.mem_range.mp hi
        show (pad (get_state i) (k + 1)).length = k + 1
        rw [pad_length, get_state_length]
        omega
      rw [List.map_congr_left hcongr]
      simp
    rw [hlen, foldl_max_replicate_zero, List.map_map]
    apply List.map_congr_left
    intro i hi
    have hik : i < k + 1 := List.mem_range.mp hi
    show pad (pad (get_state i) (k + 1)) (k + 1) = pad (get_state i) (k + 1)
    apply pad_eq_self
    rw [pad_length, get_state_length]
    omega

/- ---------- C9: summing the scaled identity columns ---------- -/

/-- The list of scaled columns `extract` builds from a state `v` and the
identity gate in closed form: `self.zip(g).map(|(x, s)| s.map(|y| x * y))`. -/
def scaled_cols (v : List ℂ) : List (List ℂ) :=
  List.zipWith (fun x s => s.map fun y => x * y) v
    ((List.range v.length).map fun i => pad (get_state i) v.length)

theorem zip_cons_cons (a b : ℂ) (as bs : List ℂ) (f : ℂ → ℂ → ℂ) :
    zip (a :: as) (b :: bs) f = f a b :: zip as bs f := by
  simp only [zip, List.length_cons]
  have hm : max (as.length + 1) (bs.length + 1) = max as.length bs.length + 1 := by
    omega
  rw [hm, pad_cons, pad_cons, List.zipWith_cons_cons]

theorem zipWith_zero_add (c : List ℂ) :
    List.zipWith (fun x y => x + y) (List.replicate c.length 0) c = c := by
  induction c with
  | nil => rfl
  | cons b bs ih =>
    rw [List.length_cons, List.replicate_succ, List.zipWith_cons_cons, ih]
    simp

theorem zip_nil_left (c : List ℂ) : zip [] c (fun x y => x + y) = c := by
  simp only [zip, List.length_nil, Nat.zero_max, pad_nil]
  rw [pad_eq_self c c.length (le_refl _)]
  exact zipWith_zero_add c

theorem pad_max_self (c : List ℂ) (k : Nat) : pad c (max k c.length) = pad c k := by
  unfold pad
  congr 2
  omega

theorem zip_replicate_zero (k : Nat) (c : List ℂ) :
    zip (List.replicate k 0) c (fun x y => x + y) = pad c k := by
  simp only [zip, List.length_replicate]
  have h1 : pad (List.replicate k 0) (max k c.length)
      = List.replicate (max k c.length) 0 := by
    unfold pad
    rw [List.length_replicate, ← List.replicate_add]
    congr 1
    omega
  rw [h1]
  have h2 : (pad c (max k c.length)).length = max k c.length := by
    rw [pad_length]
    omega
  have h3 := zipWith_zero_add (pad c (max k c.length))
  rw [h2] at h3
  rw [h3, pad_max_self]

theorem foldl_zip_lift :
    ∀ (cs : List (List ℂ)) (a : ℂ) (as : List ℂ),
      (cs.map (fun c => (0 : ℂ) :: c)).foldl
          (fun p q => zip p q (fun x y => x + y)) (a :: as)
        = a :: cs.foldl (fun p q => zip p q (fun x y => x + y)) as := by
  intro cs
  induction cs with
  | nil => intro a as; rfl
  | cons c cs ih =>
    intro a as
    simp only [List.map_cons, List.foldl_cons]
    rw [zip_cons_cons, ih]
    norm_num

theorem scaled_cols_cons (x : ℂ) (v : List ℂ) :
    scaled_cols (x :: v)
      = (x :: List.replicate v.length 0)
        :: (scaled_cols v).map (fun c => (0 : ℂ) :: c) := by
  unfold scaled_cols
  rw [List.length_cons, List.range_succ_eq_map, List.map_cons,
    List.zipWith_cons_cons, List.map_map]
  congr 1
  · have hp : pad (get_state 0) (v.length + 1)
        = (1 : ℂ) :: List.replicate v.length 0 := by
      show pad ((1 : ℂ) :: []) (v.length + 1) = _
      rw [pad_cons, pad_nil]
    rw [hp, List.map_cons, List.map_replicate]
    simp
  · have hg : ∀ i ∈ List.range v.length,
        ((fun i => pad (get_state i) (v.length + 1)) ∘ Nat.succ) i
          = (0 : ℂ) :: pad (get_state i) v.length := by
      intro i hi
      show pad (get_state (i + 1)) (v.length + 1) = _
      rw [get_state_succ, pad_cons]
    rw [List.map_congr_left hg]
    rw [List.zipWith_map_right, List.map_zipWith, List.zipWith_map_right]
    have hfun : (fun (x : ℂ) (i : Nat) =>
          ((0 : ℂ) :: pad (get_state i) v.length).map (fun y => x * y))
        = (fun (x : ℂ) (i : Nat) =>
          (0 : ℂ) :: (pad (get_state i) v.length).map (fun y => x * y)) := by
      funext x i
      rw [List.map_cons, mul_zero]
    rw [hfun]

theorem sum_scaled :
    ∀ (v : List ℂ),
      (scaled_cols v).foldl (fun a b => zip a b (fun x y => x + y)) [] = v := by
  intro v
  induction v with
  | nil => rfl
  | cons x v ih =>
    rw [scaled_cols_cons, List.foldl_cons, zip_nil_left, foldl_zip_lift]
    congr 1
    cases v with
    | nil => rfl
    | cons y v2 =>
      rw [scaled_cols_cons, List.length_cons, List.foldl_cons, zip_replicate_zero]
      have hp : pad ((y : ℂ) :: List.replicate v2.length 0) (v2.length + 1)
          = y :: List.replicate v2.length 0 :=
        pad_eq_self _ _ (by simp)
      rw [hp]
      have ih2 := ih
      rw [scaled_cols_cons, List.foldl_cons, zip_nil_left] at ih2
      exact ih2

theorem prob_sum_cons (a : ℂ) (l : List ℂ) :
    prob_sum (a :: l) = absq a + prob_sum l := by
  rw [prob_sum_eq_sum, prob_sum_eq_sum, List.map_cons, List.sum_cons]

theorem prob_sum_replicate_zero (k : Nat) :
    prob_sum (List.replicate k (0 : ℂ)) = 0 := by
  induction k with
  | zero => rfl
  | succ j ih => rw [List.replicate_succ, prob_sum_cons, ih, absq_zero, add_zero]

theorem pooled_scaled (v : List ℂ) :
    ((scaled_cols v).map prob_sum).foldl (fun a b => a + b) 0 = prob_sum v := by
  rw [foldl_add_eq_sum, zero_add]
  induction v with
  | nil => rfl
  | cons x v ih =>
    rw [scaled_cols_cons, List.map_cons, List.sum_cons, List.map_map]
    rw [prob_sum_cons (a := x)]
    rw [prob_sum_cons, prob_sum_replicate_zero, add_zero]
    have hc : ∀ c ∈ scaled_cols v, (prob_sum ∘ fun c => (0 : ℂ) :: c) c = prob_sum c := by
      intro c hcmem
      show prob_sum ((0 : ℂ) :: c) = prob_sum c
      rw [prob_sum_cons, absq_zero, zero_add]
    rw [List.map_congr_left hc, ih]

/-- C9 (amended): for every *normalized* state `v` (`prob_sum v = 1`),
`extract v (identity_gate |v|) = v`.  For general `v` the claim fails:
`extract` renormalizes through `create_sup`, dividing by `√(prob_sum v)`
(see the counterexample). -/
theorem c9_extract_identity (v : List ℂ) (h : prob_sum v = 1) :
    extract v (identity_gate v.length) = v := by
  unfold extract
  rw [identity_gate_eq]
  show ((scaled_cols v).foldl (fun a b => zip a b (fun x y => x + y)) []).map
      (fun x =>
        x / ((Real.sqrt (((scaled_cols v).map prob_sum).foldl
          (fun a b => a + b) 0) : ℝ) : ℂ)) = v
  rw [pooled_scaled, h, Real.sqrt_one, sum_scaled]
  simp

/-- C9 witness: the normalized one-dimensional state `[1]` is fixed by
the compiled identity gate. -/
theorem c9_extract_identity_witness :
    extract [(1 : ℂ)] (identity_gate 1) = [(1 : ℂ)] :=
  c9_extract_identity [(1 : ℂ)] (by norm_num [prob_sum, absq])

/-- C9 counterexample: the non-normalized state `[2]` is *not* fixed by
the compiled identity gate — `extract` divides by `√(prob_sum) = 2` and
returns `[1]`. -/
theorem c9_extract_identity_counterexample :
    extract [(2 : ℂ)] (identity_gate 1) = [(1 : ℂ)]
    ∧ extract [(2 : ℂ)] (identity_gate 1) ≠ [(2 : ℂ)] := by
  have hg : identity_gate 1 = [[(1 : ℂ)]] := by
    rw [identity_gate_eq]
    simp [get_state, pad, List.range_succ]
  have h4 : Real.sqrt 4 = 2 := by
    rw [show (4 : ℝ) = 2 ^ 2 by norm_num]
    exact Real.sqrt_sq (by norm_num)
  have he : extract [(2 : ℂ)] (identity_gate 1) = [(1 : ℂ)] := by
    rw [hg]
    norm_num [extract, create_sup, zip, pad, prob_sum, absq, h4]
  refine ⟨he, ?_⟩
  rw [he]
  intro hcontra
  have : (1 : ℂ) = 2 := by injection hcontra
  norm_num at this
